import Mathlib

/-!
Verification of the AutoClip render pipeline core (`src/pipeline.py`) and its
clip source manager (`src/processors/matcher.py`), shallowly embedded in Lean.
Seconds are modelled as rationals; Python dict records become structures with
the source's field names; the `while` loops of the source become fuel-indexed
recursions whose fuel provably suffices.
-/

namespace AutoClip

/-- `FolderWeight` from `src/models.py`: one weighted source folder entry. -/
structure FolderWeight where
  folder : String
  weight : ℚ
  speed : ℚ
  clip_min_duration : ℚ
  clip_max_duration : ℚ
deriving DecidableEq

/-- A timeline block dict as built in `pipeline.run` (lines 119-126). -/
structure TimelineBlock where
  folder : String
  speed : ℚ
  clip_min_duration : ℚ
  clip_max_duration : ℚ
  start : ℚ
  end_ : ℚ
deriving DecidableEq

/-- The block-building loop of `pipeline.run` lines 112-127: one block per
`FolderWeight`, each spanning `weight / total_weight * total_duration`,
accumulated left to right from `current_t`. -/
def buildBlocks (assets_dir : String) (total_weight total_duration : ℚ) :
    List FolderWeight → ℚ → List TimelineBlock
  | [], _ => []
  | fw :: rest, current_t =>
      let duration_share := if total_weight > 0 then fw.weight / total_weight * total_duration else 0
      { folder := assets_dir ++ "/video/" ++ fw.folder
        speed := fw.speed
        clip_min_duration := fw.clip_min_duration
        clip_max_duration := fw.clip_max_duration
        start := current_t
        end_ := current_t + duration_share } ::
        buildBlocks assets_dir total_weight total_duration rest (current_t + duration_share)

/-- `timeline_blocks[-1]["end"] = max(total_duration, timeline_blocks[-1]["end"])`
(`pipeline.py` lines 130-131): raise the last block's end to cover drift. -/
def clampLast (total_duration : ℚ) : List TimelineBlock → List TimelineBlock
  | [] => []
  | [b] => [{ b with end_ := max total_duration b.end_ }]
  | b :: rest => b :: clampLast total_duration rest

/-- The timeline planner of `pipeline.run` lines 107-131. -/
def planTimeline (assets_dir : String) (folder_weights : List FolderWeight)
    (total_duration : ℚ) : List TimelineBlock :=
  let total_weight := (folder_weights.map (·.weight)).sum
  clampLast total_duration (buildBlocks assets_dir total_weight total_duration folder_weights 0)

/-- The span of a block. -/
def span (b : TimelineBlock) : ℚ := b.end_ - b.start

/-- Sum of the spans of a block list. -/
def spanSum (bs : List TimelineBlock) : ℚ := (bs.map span).sum

/-! Helper lemmas about `buildBlocks`. -/

theorem buildBlocks_start_eq (assets : String) (W D : ℚ) (fw : FolderWeight)
    (rest : List FolderWeight) (c : ℚ) :
    ∃ b bs, buildBlocks assets W D (fw :: rest) c = b :: bs ∧ b.start = c := by
  refine ⟨_, _, rfl, rfl⟩

/-- Every block of `buildBlocks` has span `weight / W * D` of its folder entry;
in particular spans are nonnegative when weights are and `W, D > 0`. -/
theorem buildBlocks_span_nonneg (assets : String) (W D : ℚ) (hW : 0 < W) (hD : 0 < D) :
    ∀ (fws : List FolderWeight) (c : ℚ), (∀ fw ∈ fws, 0 ≤ fw.weight) →
      ∀ b ∈ buildBlocks assets W D fws c, 0 ≤ span b := by
  intro fws
  induction fws with
  | nil => intro c _ b hb; simp [buildBlocks] at hb
  | cons fw rest ih =>
      intro c hw b hb
      simp only [buildBlocks, List.mem_cons] at hb
      rcases hb with hb | hb
      · subst hb
        simp only [span, hW, if_pos]
        have hfw : 0 ≤ fw.weight := hw fw (by simp)
        have : 0 ≤ fw.weight / W * D := by positivity
        linarith
      · exact ih _ (fun g hg => hw g (by simp [hg])) b hb

/-- Chained contiguity of `buildBlocks`: each block ends where the next starts. -/
theorem buildBlocks_chain (assets : String) (W D : ℚ) :
    ∀ (fws : List FolderWeight) (c : ℚ),
      List.Chain' (fun a b => a.end_ = b.start) (buildBlocks assets W D fws c) := by
  intro fws
  induction fws with
  | nil => intro c; simp [buildBlocks]
  | cons fw rest ih =>
      intro c
      cases rest with
      | nil => simp [buildBlocks]
      | cons fw2 rest2 =>
          refine List.Chain'.cons ?_ (ih _)
          rfl

/-- The spans of `buildBlocks` sum to the total of the shares. -/
theorem buildBlocks_spanSum (assets : String) (W D : ℚ) (hW : 0 < W) :
    ∀ (fws : List FolderWeight) (c : ℚ),
      spanSum (buildBlocks assets W D fws c) = ((fws.map (·.weight)).sum) / W * D := by
  intro fws
  induction fws with
  | nil => intro c; simp [buildBlocks, spanSum]
  | cons fw rest ih =>
      intro c
      simp only [buildBlocks, spanSum, List.map_cons, List.sum_cons, hW, if_pos]
      have := ih (c + fw.weight / W * D)
      simp only [spanSum] at this
      rw [this]
      simp only [span]
      ring

/-- The last block of `buildBlocks` ends at `c` plus the total of the shares. -/
theorem buildBlocks_last_end (assets : String) (W D : ℚ) (hW : 0 < W) :
    ∀ (fws : List FolderWeight) (c : ℚ) (hne : fws ≠ []) (b : TimelineBlock),
      (buildBlocks assets W D fws c).getLast? = some b →
      b.end_ = c + ((fws.map (·.weight)).sum) / W * D := by
  intro fws
  induction fws with
  | nil => intro c hne; exact absurd rfl hne
  | cons fw rest ih =>
      intro c _ b hb
      cases hr : rest with
      | nil =>
          subst hr
          simp only [buildBlocks, List.getLast?_singleton, Option.some.injEq] at hb
          subst hb
          simp [hW]
      | cons fw2 rest2 =>
          subst hr
          have hne2 : buildBlocks assets W D (fw2 :: rest2)
              (c + (if W > 0 then fw.weight / W * D else 0)) ≠ [] := by
            simp [buildBlocks]
          rw [show buildBlocks assets W D (fw :: fw2 :: rest2) c =
                _ :: buildBlocks assets W D (fw2 :: rest2)
                  (c + (if W > 0 then fw.weight / W * D else 0)) from rfl] at hb
          obtain ⟨b3, bs3, hb3⟩ : ∃ b3 bs3, buildBlocks assets W D (fw2 :: rest2)
              (c + (if W > 0 then fw.weight / W * D else 0)) = b3 :: bs3 := ⟨_, _, rfl⟩
          rw [hb3, List.getLast?_cons_cons, ← hb3] at hb
          have := ih (c + (if W > 0 then fw.weight / W * D else 0)) (by simp) b hb
          rw [this]
          simp only [hW, if_pos]
          simp only [List.map_cons, List.sum_cons]
          ring

/-- `clampLast` is the identity when the last end already reaches `D`. -/
theorem clampLast_eq_self (D : ℚ) :
    ∀ (bs : List TimelineBlock), (∀ b, bs.getLast? = some b → D ≤ b.end_) →
      clampLast D bs = bs := by
  intro bs
  induction bs with
  | nil => intro _; rfl
  | cons b rest ih =>
      intro h
      cases hr : rest with
      | nil =>
          subst hr
          have hb := h b (by simp)
          simp [clampLast, max_eq_right hb]
      | cons b2 rest2 =>
          subst hr
          simp only [clampLast]
          congr 1
          refine ih ?_
          intro x hx
          refine h x ?_
          rw [List.getLast?_cons_cons]
          exact hx

theorem sum_weights_pos (fws : List FolderWeight) (hne : fws ≠ [])
    (hpos : ∀ fw ∈ fws, 0 < fw.weight) : 0 < (fws.map (·.weight)).sum := by
  refine List.sum_pos _ ?_ (by simpa using hne)
  intro x hx
  obtain ⟨fw, hfw, rfl⟩ := List.mem_map.mp hx
  exact hpos fw hfw

theorem planTimeline_eq_buildBlocks (assets : String) (fws : List FolderWeight) (D : ℚ)
    (hne : fws ≠ []) (hpos : ∀ fw ∈ fws, 0 < fw.weight) :
    planTimeline assets fws D =
      buildBlocks assets ((fws.map (·.weight)).sum) D fws 0 := by
  have hW : 0 < (fws.map (·.weight)).sum := sum_weights_pos fws hne hpos
  unfold planTimeline
  refine clampLast_eq_self D _ ?_
  intro b hb
  have := buildBlocks_last_end assets _ D hW fws 0 hne b hb
  rw [this, zero_add, div_self (ne_of_gt hW), one_mul]

/-- C4: for a FolderSpec list with positive weights and total duration `D > 0`,
the planner's timeline blocks have nonnegative spans summing to `D` (within
`1e-3`), are contiguous (each block's end equals the next block's start), and
the last block's end is at least `D`. -/
theorem C4_planner_blocks_invariants (assets : String) (fws : List FolderWeight) (D : ℚ)
    (hne : fws ≠ []) (hpos : ∀ fw ∈ fws, 0 < fw.weight) (hD : 0 < D) :
    (∀ b ∈ planTimeline assets fws D, 0 ≤ span b) ∧
    |spanSum (planTimeline assets fws D) - D| ≤ 1/1000 ∧
    List.Chain' (fun a b => a.end_ = b.start) (planTimeline assets fws D) ∧
    (∀ b, (planTimeline assets fws D).getLast? = some b → D ≤ b.end_) := by
  have hW : 0 < (fws.map (·.weight)).sum := sum_weights_pos fws hne hpos
  rw [planTimeline_eq_buildBlocks assets fws D hne hpos]
  refine ⟨?_, ?_, ?_, ?_⟩
  · exact buildBlocks_span_nonneg assets _ D hW hD fws 0
      (fun fw hfw => le_of_lt (hpos fw hfw))
  · rw [buildBlocks_spanSum assets _ D hW fws 0, div_self (ne_of_gt hW), one_mul]
    simp
  · exact buildBlocks_chain assets _ D fws 0
  · intro b hb
    have := buildBlocks_last_end assets _ D hW fws 0 hne b hb
    rw [this, zero_add, div_self (ne_of_gt hW), one_mul]

/-- Witness for C4 at two folders weighted 50/50 and `D = 100`. -/
theorem C4_planner_blocks_invariants_witness :
    ([⟨"a", 50, 1, 0, 0⟩, ⟨"b", 50, 1, 0, 0⟩] : List FolderWeight) ≠ [] ∧
    (0:ℚ) < 100 ∧
    ((∀ b ∈ planTimeline "assets" [⟨"a", 50, 1, 0, 0⟩, ⟨"b", 50, 1, 0, 0⟩] 100, 0 ≤ span b) ∧
     |spanSum (planTimeline "assets" [⟨"a", 50, 1, 0, 0⟩, ⟨"b", 50, 1, 0, 0⟩] 100) - 100| ≤ 1/1000 ∧
     List.Chain' (fun a b => a.end_ = b.start)
       (planTimeline "assets" [⟨"a", 50, 1, 0, 0⟩, ⟨"b", 50, 1, 0, 0⟩] 100) ∧
     (∀ b, (planTimeline "assets" [⟨"a", 50, 1, 0, 0⟩, ⟨"b", 50, 1, 0, 0⟩] 100).getLast? = some b →
       100 ≤ b.end_)) :=
  ⟨by simp, by norm_num,
   C4_planner_blocks_invariants "assets" [⟨"a", 50, 1, 0, 0⟩, ⟨"b", 50, 1, 0, 0⟩] 100
     (by simp) (by intro fw hfw; fin_cases hfw <;> norm_num) (by norm_num)⟩

/-- `MAX_CHUNK_DURATION = 15.0` (`pipeline.py` line 143). -/
def MAX_CHUNK_DURATION : ℚ := 15

/-- The chunking loop of `pipeline.run` lines 152-181, restricted to the
`(curr, next_t)` pairs it walks: `while curr < b_end: next_t = min(curr +
MAX_CHUNK_DURATION, b_end)`. Fuel-indexed; `chunkFuel` below always suffices. -/
def chunkLoop (b_end : ℚ) : ℕ → ℚ → List (ℚ × ℚ)
  | 0, _ => []
  | fuel+1, curr =>
      if curr < b_end then
        (curr, min (curr + MAX_CHUNK_DURATION) b_end) ::
          chunkLoop b_end fuel (min (curr + MAX_CHUNK_DURATION) b_end)
      else []

/-- Enough fuel for `chunkLoop` starting from `b_start`. -/
def chunkFuel (b_start b_end : ℚ) : ℕ :=
  (⌈(b_end - b_start) / MAX_CHUNK_DURATION⌉).toNat + 1

/-- The `(curr, next_t)` chunk boundaries of one timeline block. -/
def sliceBlockChunks (b_start b_end : ℚ) : List (ℚ × ℚ) :=
  chunkLoop b_end (chunkFuel b_start b_end) b_start

theorem MAX_CHUNK_DURATION_pos : (0:ℚ) < MAX_CHUNK_DURATION := by
  norm_num [MAX_CHUNK_DURATION]

theorem chunkLoop_stop (b_end : ℚ) (fuel : ℕ) (curr : ℚ) (h : ¬ curr < b_end) :
    chunkLoop b_end fuel curr = [] := by
  cases fuel with
  | zero => rfl
  | succ n => simp [chunkLoop, h]

/-- Full invariant package of the chunking loop, by induction on fuel. -/
theorem chunkLoop_invariants (b_end : ℚ) :
    ∀ (fuel : ℕ) (curr : ℚ), curr < b_end →
      (⌈(b_end - curr) / MAX_CHUNK_DURATION⌉).toNat < fuel →
      chunkLoop b_end fuel curr ≠ [] ∧
      (chunkLoop b_end fuel curr).head? =
        some (curr, min (curr + MAX_CHUNK_DURATION) b_end) ∧
      (∀ c ∈ chunkLoop b_end fuel curr,
        0 < c.2 - c.1 ∧ c.2 - c.1 ≤ MAX_CHUNK_DURATION) ∧
      List.Chain' (fun a b => a.2 = b.1) (chunkLoop b_end fuel curr) ∧
      (∀ c, (chunkLoop b_end fuel curr).getLast? = some c → c.2 = b_end) ∧
      (∀ c ∈ (chunkLoop b_end fuel curr).tail, curr < c.1) ∧
      (∀ c ∈ (chunkLoop b_end fuel curr).dropLast, c.2 < b_end) := by
  intro fuel
  induction fuel with
  | zero => intro curr _ h2; exact absurd h2 (Nat.not_lt_zero _)
  | succ n ih =>
      intro curr h1 h2
      by_cases hc : curr + MAX_CHUNK_DURATION < b_end
      · -- non-final chunk: advance by exactly MAX_CHUNK_DURATION
        have hmin : min (curr + MAX_CHUNK_DURATION) b_end = curr + MAX_CHUNK_DURATION :=
          min_eq_left (le_of_lt hc)
        have hceil : ⌈(b_end - (curr + MAX_CHUNK_DURATION)) / MAX_CHUNK_DURATION⌉ =
            ⌈(b_end - curr) / MAX_CHUNK_DURATION⌉ - 1 := by
          have : (b_end - (curr + MAX_CHUNK_DURATION)) / MAX_CHUNK_DURATION =
              (b_end - curr) / MAX_CHUNK_DURATION - 1 := by
            rw [MAX_CHUNK_DURATION]; ring
          rw [this]
          exact_mod_cast Int.ceil_sub_int ((b_end - curr) / MAX_CHUNK_DURATION) 1
        have hc15 : curr + 15 < b_end := hc
        have hgt1 : (1 : ℤ) < ⌈(b_end - curr) / MAX_CHUNK_DURATION⌉ := by
          rw [Int.lt_ceil]
          rw [MAX_CHUNK_DURATION]
          rw [lt_div_iff₀ (by norm_num : (0:ℚ) < 15)]
          push_cast
          linarith
        have h2' : (⌈(b_end - (curr + MAX_CHUNK_DURATION)) / MAX_CHUNK_DURATION⌉).toNat < n := by
          rw [hceil]
          omega
        have h1' : curr + MAX_CHUNK_DURATION < b_end := hc
        obtain ⟨ihA, ihB, ihC, ihD, ihE, ihF, ihG⟩ := ih (curr + MAX_CHUNK_DURATION) h1' h2'
        obtain ⟨hd', tl', hcs'⟩ : ∃ hd' tl',
            chunkLoop b_end n (curr + MAX_CHUNK_DURATION) = hd' :: tl' :=
          List.exists_cons_of_ne_nil ihA
        have hstep : chunkLoop b_end (n+1) curr =
            (curr, curr + MAX_CHUNK_DURATION) ::
              chunkLoop b_end n (curr + MAX_CHUNK_DURATION) := by
          simp [chunkLoop, h1, hmin]
        have hhd : hd'.1 = curr + MAX_CHUNK_DURATION := by
          rw [hcs'] at ihB
          simp only [List.head?_cons, Option.some.injEq] at ihB
          rw [ihB]
        refine ⟨by rw [hstep]; simp, ?_, ?_, ?_, ?_, ?_, ?_⟩
        · rw [hstep, hmin]; rfl
        · intro c hcmem
          rw [hstep] at hcmem
          rcases List.mem_cons.mp hcmem with rfl | hcmem
          · constructor
            · simp; rw [MAX_CHUNK_DURATION]; norm_num
            · simp
          · exact ihC c hcmem
        · rw [hstep, hcs', List.chain'_cons]
          exact ⟨by rw [hhd], by rw [← hcs']; exact ihD⟩
        · intro c hcl
          rw [hstep, hcs', List.getLast?_cons_cons, ← hcs'] at hcl
          exact ihE c hcl
        · intro c hcmem
          rw [hstep, List.tail_cons, hcs'] at hcmem
          rcases List.mem_cons.mp hcmem with rfl | hmem
          · rw [hhd]; linarith [MAX_CHUNK_DURATION_pos]
          · have := ihF c (by rw [hcs']; simpa using hmem)
            linarith [MAX_CHUNK_DURATION_pos]
        · intro c hcmem
          rw [hstep, hcs', List.dropLast_cons₂] at hcmem
          rcases List.mem_cons.mp hcmem with rfl | hcmem
          · simpa using hc
          · exact ihG c (by rw [hcs']; exact hcmem)
      · -- final chunk: next_t = b_end and the loop stops
        have hmin : min (curr + MAX_CHUNK_DURATION) b_end = b_end :=
          min_eq_right (not_lt.mp hc)
        have hstep : chunkLoop b_end (n+1) curr = [(curr, b_end)] := by
          simp only [chunkLoop, if_pos h1, hmin]
          rw [chunkLoop_stop b_end n b_end (lt_irrefl b_end)]
        rw [hstep]
        refine ⟨by simp, by rw [hmin]; rfl, ?_, by simp, ?_, by simp, by simp⟩
        · intro c hcmem
          rcases List.mem_singleton.mp hcmem with rfl
          refine ⟨by simpa using h1, ?_⟩
          simp only
          linarith [not_lt.mp hc]
        · intro c hcl
          simp only [List.getLast?_singleton, Option.some.injEq] at hcl
          rw [← hcl]

/-- The invariants instantiated for `sliceBlockChunks` (fuel always suffices). -/
theorem sliceBlockChunks_invariants (b_start b_end : ℚ) (h : b_start < b_end) :
    sliceBlockChunks b_start b_end ≠ [] ∧
    (sliceBlockChunks b_start b_end).head? =
      some (b_start, min (b_start + MAX_CHUNK_DURATION) b_end) ∧
    (∀ c ∈ sliceBlockChunks b_start b_end,
      0 < c.2 - c.1 ∧ c.2 - c.1 ≤ MAX_CHUNK_DURATION) ∧
    List.Chain' (fun a b => a.2 = b.1) (sliceBlockChunks b_start b_end) ∧
    (∀ c, (sliceBlockChunks b_start b_end).getLast? = some c → c.2 = b_end) ∧
    (∀ c ∈ (sliceBlockChunks b_start b_end).tail, b_start < c.1) ∧
    (∀ c ∈ (sliceBlockChunks b_start b_end).dropLast, c.2 < b_end) :=
  chunkLoop_invariants b_end (chunkFuel b_start b_end) b_start h (Nat.lt_succ_self _)

/-- Chunk durations of one block. -/
def chunkDurations (b_start b_end : ℚ) : List ℚ :=
  (sliceBlockChunks b_start b_end).map (fun c => c.2 - c.1)

theorem sliceBlockChunks_0_50 :
    sliceBlockChunks 0 50 = [(0,15),(15,30),(30,45),(45,50)] := by
  have hc : (⌈((50:ℚ)-0)/15⌉ : ℤ) = 4 := by
    rw [Int.ceil_eq_iff] <;> norm_num
  have h : chunkFuel 0 50 = 5 := by
    rw [chunkFuel, MAX_CHUNK_DURATION, hc]; rfl
  rw [sliceBlockChunks, h]
  norm_num [chunkLoop, MAX_CHUNK_DURATION]

theorem sliceBlockChunks_50_100 :
    sliceBlockChunks 50 100 = [(50,65),(65,80),(80,95),(95,100)] := by
  have hc : (⌈((100:ℚ)-50)/15⌉ : ℤ) = 4 := by
    rw [Int.ceil_eq_iff] <;> norm_num
  have h : chunkFuel 50 100 = 5 := by
    rw [chunkFuel, MAX_CHUNK_DURATION, hc]; rfl
  rw [sliceBlockChunks, h]
  norm_num [chunkLoop, MAX_CHUNK_DURATION]

/-- C5: chunks of a timeline block all have duration at most
`MAX_CHUNK_DURATION = 15`, are positive, start at the block start, are
contiguous, and end at the block end; and the planner's two 50/50 blocks over
100 s each yield exactly four chunks of durations 15, 15, 15, 5. -/
theorem C5_chunks_partition_block (b_start b_end : ℚ) (h : b_start < b_end) :
    (sliceBlockChunks b_start b_end ≠ [] ∧
     (∀ c ∈ sliceBlockChunks b_start b_end,
        0 < c.2 - c.1 ∧ c.2 - c.1 ≤ MAX_CHUNK_DURATION) ∧
     (∀ c, (sliceBlockChunks b_start b_end).head? = some c → c.1 = b_start) ∧
     List.Chain' (fun a b => a.2 = b.1) (sliceBlockChunks b_start b_end) ∧
     (∀ c, (sliceBlockChunks b_start b_end).getLast? = some c → c.2 = b_end)) ∧
    (planTimeline "assets" [⟨"a", 50, 1, 0, 0⟩, ⟨"b", 50, 1, 0, 0⟩] 100).map
      (fun b => chunkDurations b.start b.end_) = [[15,15,15,5],[15,15,15,5]] := by
  obtain ⟨hA, hB, hC, hD, hE, _, _⟩ := sliceBlockChunks_invariants b_start b_end h
  refine ⟨⟨hA, hC, ?_, hD, hE⟩, ?_⟩
  · intro c hc
    rw [hB] at hc
    simp only [Option.some.injEq] at hc
    rw [← hc]
  · norm_num [planTimeline, buildBlocks, clampLast, chunkDurations,
      sliceBlockChunks_0_50, sliceBlockChunks_50_100]

/-- Witness for C5 at the block `[0, 50)`. -/
theorem C5_chunks_partition_block_witness :
    (0:ℚ) < 50 ∧
    ((sliceBlockChunks 0 50 ≠ [] ∧
      (∀ c ∈ sliceBlockChunks 0 50, 0 < c.2 - c.1 ∧ c.2 - c.1 ≤ MAX_CHUNK_DURATION) ∧
      (∀ c, (sliceBlockChunks 0 50).head? = some c → c.1 = 0) ∧
      List.Chain' (fun a b => a.2 = b.1) (sliceBlockChunks 0 50) ∧
      (∀ c, (sliceBlockChunks 0 50).getLast? = some c → c.2 = 50)) ∧
     (planTimeline "assets" [⟨"a", 50, 1, 0, 0⟩, ⟨"b", 50, 1, 0, 0⟩] 100).map
       (fun b => chunkDurations b.start b.end_) = [[15,15,15,5],[15,15,15,5]]) :=
  ⟨by norm_num, C5_chunks_partition_block 0 50 (by norm_num)⟩

/-- Position in the chunk list determines "starts the block": only index 0
has `curr == b_start`. -/
theorem sliceBlockChunks_fst_eq_iff (b_start b_end : ℚ) (h : b_start < b_end)
    (j : ℕ) (hj : j < (sliceBlockChunks b_start b_end).length) :
    (sliceBlockChunks b_start b_end)[j].1 = b_start ↔ j = 0 := by
  obtain ⟨hA, hB, _, _, _, hF, _⟩ := sliceBlockChunks_invariants b_start b_end h
  obtain ⟨hd, tl, hcs⟩ := List.exists_cons_of_ne_nil hA
  cases j with
  | zero =>
      simp only [eq_self_iff_true, iff_true]
      have : hd = (b_start, min (b_start + MAX_CHUNK_DURATION) b_end) := by
        rw [hcs] at hB
        simpa using hB
      simp [hcs, this]
  | succ j' =>
      simp only [Nat.succ_ne_zero, iff_false]
      have hj' : j' < tl.length := by
        rw [hcs] at hj
        simpa using Nat.lt_of_succ_lt_succ hj
      have hmem : (sliceBlockChunks b_start b_end)[j'+1] ∈ tl := by
        have he : (sliceBlockChunks b_start b_end)[j'+1] = tl[j'] := by
          simp [hcs]
        rw [he]
        exact List.getElem_mem _
      have hlt := hF _ (by rw [hcs]; simpa using hmem)
      exact fun heq => absurd heq (ne_of_gt hlt)

/-- Position in the chunk list determines "ends the block": only the final
index has `next_t == b_end`. -/
theorem sliceBlockChunks_snd_eq_iff (b_start b_end : ℚ) (h : b_start < b_end)
    (j : ℕ) (hj : j < (sliceBlockChunks b_start b_end).length) :
    (sliceBlockChunks b_start b_end)[j].2 = b_end ↔
      j = (sliceBlockChunks b_start b_end).length - 1 := by
  obtain ⟨hA, _, _, _, hE, _, hG⟩ := sliceBlockChunks_invariants b_start b_end h
  constructor
  · intro heq
    by_contra hne
    have hjlt : j < (sliceBlockChunks b_start b_end).dropLast.length := by
      rw [List.length_dropLast]
      omega
    have : (sliceBlockChunks b_start b_end)[j] ∈
        (sliceBlockChunks b_start b_end).dropLast := by
      rw [show (sliceBlockChunks b_start b_end)[j] =
            (sliceBlockChunks b_start b_end).dropLast[j] from
          (List.getElem_dropLast _ j hjlt).symm]
      exact List.getElem_mem _
    exact absurd heq (ne_of_lt (hG _ this))
  · intro heq
    have := hE _ (List.getLast?_eq_getLast_of_ne_nil hA)
    rw [List.getLast_eq_getElem] at this
    subst heq
    exact this

/-- A render task dict as built in `pipeline.run` lines 166-178. -/
structure RenderTask where
  start : ℚ
  end_ : ℚ
  folder : String
  speed : ℚ
  clip_min_duration : ℚ
  clip_max_duration : ℚ
  duration : ℚ
  is_block_start : Bool
  is_block_end : Bool
  block_index : ℕ
  total_blocks : ℕ
deriving DecidableEq

/-- One chunk's task record (`pipeline.py` lines 156-178):
`is_block_start = (curr == b_start)`, `is_block_end = (next_t == b_end)`. -/
def mkRenderTask (idx_b total : ℕ) (b : TimelineBlock) (c : ℚ × ℚ) : RenderTask :=
  { start := c.1
    end_ := c.2
    folder := b.folder
    speed := b.speed
    clip_min_duration := b.clip_min_duration
    clip_max_duration := b.clip_max_duration
    duration := c.2 - c.1
    is_block_start := decide (c.1 = b.start)
    is_block_end := decide (c.2 = b.end_)
    block_index := idx_b
    total_blocks := total }

/-- All render tasks of block number `idx_b`. -/
def tasksForBlock (total idx_b : ℕ) (b : TimelineBlock) : List RenderTask :=
  (sliceBlockChunks b.start b.end_).map (mkRenderTask idx_b total b)

/-- The full `render_tasks` list of `pipeline.run` lines 144-181. -/
def buildRenderTasks (blocks : List TimelineBlock) : List RenderTask :=
  (blocks.enum.map (fun p => tasksForBlock blocks.length p.1 p.2)).join

/-- The literal mojibake string `"æ— "` that `pipeline.py` line 271 compares
the transition type against (alongside `"None"`). -/
def transitionNoneAlt : String := "æ— "

/-- `has_trans` of `pipeline.py` line 271. -/
def has_trans (transition_type : String) : Bool :=
  decide (transition_type ≠ "None") && decide (transition_type ≠ transitionNoneAlt)

/-- `pad_head` computation of `pipeline.py` lines 268-276. -/
def pad_head (transition_type : String) (trans_dur : ℚ) (task : RenderTask) : ℚ :=
  if has_trans transition_type ∧ task.is_block_start ∧ 0 < task.block_index then
    if transition_type = "Crossfade" then trans_dur else 0
  else 0

/-- `pad_tail` computation of `pipeline.py` lines 268-280. -/
def pad_tail (transition_type : String) (trans_dur : ℚ) (task : RenderTask) : ℚ :=
  if has_trans transition_type ∧ task.is_block_end ∧
      task.block_index < task.total_blocks - 1 then
    if transition_type = "Crossfade" then trans_dur else 0
  else 0

/-- `needed_duration = duration + pad_head + pad_tail` (`pipeline.py` line 287). -/
def needed_duration (transition_type : String) (trans_dur : ℚ) (task : RenderTask) : ℚ :=
  task.duration + pad_head transition_type trans_dur task +
    pad_tail transition_type trans_dur task

/-- `fetch_duration_source = needed_duration * speed_factor` (`pipeline.py` line 293). -/
def fetch_duration_source (transition_type : String) (trans_dur : ℚ)
    (task : RenderTask) : ℚ :=
  needed_duration transition_type trans_dur task * task.speed

theorem tasksForBlock_flags (total idx_b : ℕ) (b : TimelineBlock)
    (h : b.start < b.end_) (j : ℕ) (hj : j < (tasksForBlock total idx_b b).length) :
    (tasksForBlock total idx_b b)[j].is_block_start = decide (j = 0) ∧
    (tasksForBlock total idx_b b)[j].is_block_end =
      decide (j = (tasksForBlock total idx_b b).length - 1) ∧
    (tasksForBlock total idx_b b)[j].block_index = idx_b ∧
    (tasksForBlock total idx_b b)[j].total_blocks = total := by
  have hj' : j < (sliceBlockChunks b.start b.end_).length := by
    rw [tasksForBlock, List.length_map] at hj
    exact hj
  have hget : (tasksForBlock total idx_b b)[j] =
      mkRenderTask idx_b total b ((sliceBlockChunks b.start b.end_)[j]) := by
    simp [tasksForBlock]
  refine ⟨?_, ?_, by rw [hget]; rfl, by rw [hget]; rfl⟩
  · rw [hget, mkRenderTask]
    simp only
    rw [Bool.eq_iff_iff]
    simp only [decide_eq_true_eq]
    exact sliceBlockChunks_fst_eq_iff b.start b.end_ h j hj'
  · rw [hget, mkRenderTask]
    simp only
    rw [Bool.eq_iff_iff]
    simp only [decide_eq_true_eq]
    rw [tasksForBlock, List.length_map]
    exact sliceBlockChunks_snd_eq_iff b.start b.end_ h j hj'

/-- C6: under transition type "Crossfade" with duration `trans_dur`, the first
chunk of a non-first block gets `pad_head = trans_dur`, the last chunk of a
non-last block gets `pad_tail = trans_dur`, every other pad is zero; under
"None" every pad is zero; and the fetched source duration of a chunk is
`(visual duration + pad_head + pad_tail) * speed`. -/
theorem C6_transition_pads (trans_dur : ℚ) (blocks : List TimelineBlock)
    (hpos : ∀ b ∈ blocks, b.start < b.end_) (i : ℕ) (b : TimelineBlock)
    (hib : blocks.get? i = some b) (j : ℕ)
    (hj : j < (tasksForBlock blocks.length i b).length) :
    pad_head "Crossfade" trans_dur (tasksForBlock blocks.length i b)[j] =
      (if j = 0 ∧ 0 < i then trans_dur else 0) ∧
    pad_tail "Crossfade" trans_dur (tasksForBlock blocks.length i b)[j] =
      (if j = (tasksForBlock blocks.length i b).length - 1 ∧ i < blocks.length - 1
       then trans_dur else 0) ∧
    pad_head "None" trans_dur (tasksForBlock blocks.length i b)[j] = 0 ∧
    pad_tail "None" trans_dur (tasksForBlock blocks.length i b)[j] = 0 ∧
    (∀ ttype : String,
      fetch_duration_source ttype trans_dur (tasksForBlock blocks.length i b)[j] =
        ((tasksForBlock blocks.length i b)[j].duration +
          pad_head ttype trans_dur (tasksForBlock blocks.length i b)[j] +
          pad_tail ttype trans_dur (tasksForBlock blocks.length i b)[j]) *
          (tasksForBlock blocks.length i b)[j].speed) := by
  have hb : b.start < b.end_ := hpos b (List.get?_mem hib)
  obtain ⟨f1, f2, f3, f4⟩ := tasksForBlock_flags blocks.length i b hb j hj
  refine ⟨?_, ?_, ?_, ?_, ?_⟩
  · rw [pad_head, f1, f3]
    by_cases hj0 : j = 0 <;> by_cases hi : 0 < i <;>
      simp +decide [has_trans, transitionNoneAlt, hj0, hi]
  · rw [pad_tail, f2, f3, f4]
    by_cases hjl : j = (tasksForBlock blocks.length i b).length - 1 <;>
      by_cases hi : i < blocks.length - 1 <;>
        simp +decide [has_trans, transitionNoneAlt, hjl, hi]
  · rw [pad_head]
    simp +decide [has_trans, transitionNoneAlt]
  · rw [pad_tail]
    simp +decide [has_trans, transitionNoneAlt]
  · intro ttype
    rw [fetch_duration_source, needed_duration]

theorem padsDemo_pos :
    ∀ b ∈ ([⟨"f", 1, 0, 0, 0, 50⟩, ⟨"g", 1, 0, 0, 50, 100⟩] : List TimelineBlock),
      b.start < b.end_ := by
  intro b hb
  fin_cases hb <;> norm_num

theorem padsDemo_len : 0 < (tasksForBlock 2 1 ⟨"g", 1, 0, 0, 50, 100⟩).length := by
  rw [tasksForBlock, List.length_map]
  have h := (sliceBlockChunks_invariants 50 100 (by norm_num)).1
  exact List.length_pos.mpr h

/-- Witness for C6 on two explicit blocks `[0,50)`, `[50,100)`, inspecting the
first chunk of the second (non-first) block. -/
theorem C6_transition_pads_witness :
    (∀ b ∈ ([⟨"f", 1, 0, 0, 0, 50⟩, ⟨"g", 1, 0, 0, 50, 100⟩] : List TimelineBlock),
      b.start < b.end_) ∧
    (([⟨"f", 1, 0, 0, 0, 50⟩, ⟨"g", 1, 0, 0, 50, 100⟩] : List TimelineBlock).get? 1 =
      some ⟨"g", 1, 0, 0, 50, 100⟩) ∧
    (0 < (tasksForBlock 2 1 ⟨"g", 1, 0, 0, 50, 100⟩).length) ∧
    (pad_head "Crossfade" (1/2) ((tasksForBlock 2 1 ⟨"g", 1, 0, 0, 50, 100⟩).get ⟨0, padsDemo_len⟩) =
      (if (0:ℕ) = 0 ∧ 0 < 1 then (1/2 : ℚ) else 0) ∧
     pad_tail "Crossfade" (1/2) ((tasksForBlock 2 1 ⟨"g", 1, 0, 0, 50, 100⟩).get ⟨0, padsDemo_len⟩) =
      (if (0:ℕ) = (tasksForBlock 2 1 ⟨"g", 1, 0, 0, 50, 100⟩).length - 1 ∧
          (1:ℕ) < 2 - 1 then (1/2 : ℚ) else 0) ∧
     pad_head "None" (1/2) ((tasksForBlock 2 1 ⟨"g", 1, 0, 0, 50, 100⟩).get ⟨0, padsDemo_len⟩) = 0 ∧
     pad_tail "None" (1/2) ((tasksForBlock 2 1 ⟨"g", 1, 0, 0, 50, 100⟩).get ⟨0, padsDemo_len⟩) = 0 ∧
     (∀ ttype : String,
       fetch_duration_source ttype (1/2) ((tasksForBlock 2 1 ⟨"g", 1, 0, 0, 50, 100⟩).get ⟨0, padsDemo_len⟩) =
         ((((tasksForBlock 2 1 ⟨"g", 1, 0, 0, 50, 100⟩).get ⟨0, padsDemo_len⟩)).duration +
           pad_head ttype (1/2) ((tasksForBlock 2 1 ⟨"g", 1, 0, 0, 50, 100⟩).get ⟨0, padsDemo_len⟩) +
           pad_tail ttype (1/2) ((tasksForBlock 2 1 ⟨"g", 1, 0, 0, 50, 100⟩).get ⟨0, padsDemo_len⟩)) *
           (((tasksForBlock 2 1 ⟨"g", 1, 0, 0, 50, 100⟩).get ⟨0, padsDemo_len⟩)).speed)) :=
  ⟨padsDemo_pos, rfl, padsDemo_len,
    C6_transition_pads (1/2) [⟨"f", 1, 0, 0, 0, 50⟩, ⟨"g", 1, 0, 0, 50, 100⟩]
      padsDemo_pos 1 ⟨"g", 1, 0, 0, 50, 100⟩ rfl 0 padsDemo_len⟩

/-- A source video file of one folder. `path` is the file's name key: only the
sorted-name order matters to the matcher, so names are modelled as naturals
ordered like Python's string sort of the folder listing. `readable = false`
models `VideoFileClip(path)` raising (`matcher.py` line 95). -/
structure VideoFile where
  path : ℕ
  duration : ℚ
  readable : Bool
deriving DecidableEq

/-- A provenance record appended to `segments_used` (`matcher.py` lines 77-82). -/
structure Segment where
  source_file : ℕ
  source_start : ℚ
  source_end : ℚ
  duration : ℚ
deriving DecidableEq

/-- Per-folder cursor state (`matcher.py` lines 21-25). -/
structure FolderState where
  videos : List VideoFile
  current_vid_idx : ℕ
  current_time : ℚ
deriving DecidableEq

def defaultVideo : VideoFile := ⟨0, 0, false⟩

/-- `current_vid_idx = (current_vid_idx + 1) % len(videos); current_time = 0`
(`matcher.py` lines 66-67, 92-93, 98-99). -/
def advanceState (st : FolderState) : FolderState :=
  { st with current_vid_idx := (st.current_vid_idx + 1) % st.videos.length
            current_time := 0 }

/-- The `while remaining_duration > 0 and loop_guard < max_loops` loop of
`get_ordered_clip` (`matcher.py` lines 47-101). Fuel is `max_loops -
loop_guard`; every iteration of the Python loop increments `loop_guard`
exactly once. Unreadable files are skipped by advancing the cursor; a file
is advanced past when fewer than 0.1 s of it remain (line 91). -/
def orderedLoop : ℕ → FolderState → ℚ → List Segment × FolderState
  | 0, st, _ => ([], st)
  | fuel+1, st, remaining =>
      if 0 < remaining then
        let v := st.videos.getD st.current_vid_idx defaultVideo
        if v.readable then
          let start_t := st.current_time
          let available_time := v.duration - start_t
          if available_time ≤ 0 then
            orderedLoop fuel (advanceState st) remaining
          else
            let take_time := min available_time remaining
            let seg : Segment := ⟨v.path, start_t, start_t + take_time, take_time⟩
            let st1 := { st with current_time := st.current_time + take_time }
            let st2 := if v.duration - 1/10 ≤ st1.current_time then advanceState st1 else st1
            let res := orderedLoop fuel st2 (remaining - take_time)
            (seg :: res.1, res.2)
        else
          orderedLoop fuel (advanceState st) remaining
      else ([], st)

/-- `sorted(get_video_files(folder_path))` (`matcher.py` line 19). -/
def sortVideos (files : List VideoFile) : List VideoFile :=
  List.insertionSort (fun a b => a.path ≤ b.path) files

/-- `_init_folder_state` (`matcher.py` lines 17-25): sorted list, index 0,
in-file offset 0. -/
def initFolderState (files : List VideoFile) : FolderState :=
  ⟨sortVideos files, 0, 0⟩

/-- The Python return value of `get_ordered_clip`: the bare `None` of
`matcher.py` line 37 (not a pair!), or the `(clip, segments_used)` pair of
lines 103-109, whose clip handle is `none` exactly when nothing was
collected (line 104). The media handle is abstracted as the provenance of
the concatenated subclips. -/
inductive OrderedRet where
  | bareNone : OrderedRet
  | pair : Option (List Segment) → List Segment → OrderedRet
deriving DecidableEq

/-- `get_ordered_clip` (`matcher.py` lines 27-109) acting on one folder's
state; `max_loops = len(videos) * 2` (line 45). Returns the Python return
value together with the mutated cursor state. -/
def get_ordered_clip (st : FolderState) (target_duration : ℚ) :
    OrderedRet × FolderState :=
  if st.videos = [] then (.bareNone, st)
  else
    let res := orderedLoop (st.videos.length * 2) st target_duration
    if res.1 = [] then (.pair none [], res.2)
    else (.pair (some res.1) res.1, res.2)

/-- C7: sequential slicing never skips a file with unplayed content: whenever
the cursor's current file is readable and has content left, the next emitted
segment comes from exactly that file at the current in-file offset (first
conjunct). Concretely (second conjunct), a fresh cursor over three 5 s files
given out of name order serves a 12 s request as file1[0-5], file2[0-5],
file3[0-2] in sorted-name order, leaving the cursor at file 3, offset 2 s;
and (third conjunct) a further 4 s request continues at file3[2-5] and wraps
circularly back to file1[0-1], leaving the cursor at file 1, offset 1 s. -/
theorem C7_sequential_sorted_wrap_noskip :
    (∀ (fuel : ℕ) (st : FolderState) (remaining : ℚ),
      0 < remaining →
      (st.videos.getD st.current_vid_idx defaultVideo).readable = true →
      0 < (st.videos.getD st.current_vid_idx defaultVideo).duration - st.current_time →
      (orderedLoop (fuel+1) st remaining).1.head? = some
        ⟨(st.videos.getD st.current_vid_idx defaultVideo).path, st.current_time,
         st.current_time +
           min ((st.videos.getD st.current_vid_idx defaultVideo).duration - st.current_time)
             remaining,
         min ((st.videos.getD st.current_vid_idx defaultVideo).duration - st.current_time)
           remaining⟩) ∧
    get_ordered_clip (initFolderState [⟨3,5,true⟩, ⟨1,5,true⟩, ⟨2,5,true⟩]) 12 =
      (.pair (some [⟨1,0,5,5⟩,⟨2,0,5,5⟩,⟨3,0,2,2⟩]) [⟨1,0,5,5⟩,⟨2,0,5,5⟩,⟨3,0,2,2⟩],
       ⟨[⟨1,5,true⟩,⟨2,5,true⟩,⟨3,5,true⟩], 2, 2⟩) ∧
    get_ordered_clip ⟨[⟨1,5,true⟩,⟨2,5,true⟩,⟨3,5,true⟩], 2, 2⟩ 4 =
      (.pair (some [⟨3,2,5,3⟩,⟨1,0,1,1⟩]) [⟨3,2,5,3⟩,⟨1,0,1,1⟩],
       ⟨[⟨1,5,true⟩,⟨2,5,true⟩,⟨3,5,true⟩], 0, 1⟩) := by
  refine ⟨?_, ?_, ?_⟩
  · intro fuel st remaining h1 h2 h3
    simp only [orderedLoop, if_pos h1, h2, if_pos, not_le.mpr h3, if_neg,
      if_false, List.head?_cons]
  · norm_num [get_ordered_clip, initFolderState, sortVideos, List.insertionSort,
      List.orderedInsert, orderedLoop, advanceState, defaultVideo, List.getD]
    simp
  · norm_num [get_ordered_clip, orderedLoop, advanceState, defaultVideo, List.getD]
    simp

/-- Witness for C7's first conjunct at a one-file folder and a 2 s request. -/
theorem C7_sequential_sorted_wrap_noskip_witness :
    0 < (2:ℚ) ∧
    (orderedLoop 1 ⟨[⟨1,5,true⟩],0,0⟩ 2).1.head? = some ⟨1, 0, 2, 2⟩ := by
  constructor
  · norm_num
  · have h := C7_sequential_sorted_wrap_noskip.1 0 ⟨[⟨1,5,true⟩],0,0⟩ 2
      (by norm_num) (by norm_num [List.getD]) (by norm_num [List.getD])
    norm_num [List.getD] at h
    exact h

/-- The random draws one call of `get_random_cut_clip` consumes: at loop
iteration `k`, `dur k` models `random.uniform(min_dur, max_dur)`
(`matcher.py` line 138), `choice k` models `random.choice(videos)` as an
index below `len(videos)` (line 148), and `frac k ∈ [0,1]` models
`random.uniform(0, max_start)` as `frac k * max_start` (line 176). -/
structure RandomDraws where
  dur : ℕ → ℚ
  choice : ℕ → ℕ
  frac : ℕ → ℚ

/-- The clamping of the drawn sub-segment length (`matcher.py` lines 138-143):
`if this_dur > remaining: this_dur = remaining elif remaining - this_dur < 1.0:
this_dur = remaining`. -/
def clampDur (remaining drawn : ℚ) : ℚ :=
  if drawn > remaining then remaining
  else if remaining - drawn < 1 then remaining
  else drawn

/-- The `while current_len < target_total_duration and safety_break < 100`
loop of `get_random_cut_clip` (`matcher.py` lines 135-195). A file whose
duration is below the clamped drawn length is skipped with `safety_break += 1`
(both sub-branches of lines 161-173 do the same); an unreadable file is the
`except` path (lines 193-195). Provenance keys of lines 182-188 are recorded
(the constant `is_random_cut: True` key is omitted). Fuel-indexed; every
iteration of the Python loop either exits or recurses with one unit less. -/
def randomLoop (videos : List VideoFile) (target : ℚ) (draws : RandomDraws) :
    ℕ → ℚ → ℕ → ℕ → List Segment
  | 0, _, _, _ => []
  | fuel+1, current_len, safety_break, k =>
      if current_len < target ∧ safety_break < 100 then
        let this_dur := clampDur (target - current_len) (draws.dur k)
        if this_dur ≤ 1/20 then []
        else
          let v := videos.getD (draws.choice k) defaultVideo
          if v.readable then
            if v.duration < this_dur then
              randomLoop videos target draws fuel current_len (safety_break+1) (k+1)
            else
              let start_t := draws.frac k * (v.duration - this_dur)
              ⟨v.path, start_t, start_t + this_dur, this_dur⟩ ::
                randomLoop videos target draws fuel (current_len + this_dur)
                  safety_break (k+1)
          else
            randomLoop videos target draws fuel current_len (safety_break+1) (k+1)
      else []

/-- Fuel that always suffices for `randomLoop`: at most 100 retry iterations
plus one productive iteration per 1/20 s of the requested total. -/
def randomBigFuel (target : ℚ) : ℕ := (⌈target * 20⌉).toNat + 102

/-- `get_random_cut_clip` (`matcher.py` lines 111-227): an empty folder or an
empty collection yields the no-content pair `(None, [])` (lines 121-122,
197-202); the media handle is abstracted as the provenance list of the
concatenated subclips. -/
def get_random_cut_clip (st : FolderState) (target_total_duration : ℚ)
    (min_dur max_dur : ℚ) (draws : RandomDraws) :
    Option (List Segment) × List Segment :=
  if st.videos = [] then (none, [])
  else
    let segs := randomLoop st.videos target_total_duration draws
      (randomBigFuel target_total_duration) 0 0 0
    if segs = [] then (none, []) else (some segs, segs)

/-- Total duration of a provenance list. -/
def segTotal (segs : List Segment) : ℚ := (segs.map (·.duration)).sum

theorem getD_mem_of_lt (l : List VideoFile) (i : ℕ) (h : i < l.length) :
    l.getD i defaultVideo ∈ l := by
  rw [List.getD_eq_getElem?_getD, List.getElem?_eq_getElem h, Option.getD_some]
  exact List.getElem_mem _

theorem clampDur_le_remaining (r w : ℚ) : clampDur r w ≤ r := by
  rw [clampDur]
  split_ifs with h1 h2 <;> linarith

theorem clampDur_lt_succ_max (r w m : ℚ) (hw : w ≤ m) : clampDur r w < m + 1 := by
  rw [clampDur]
  split_ifs with h1 h2 <;> linarith

theorem clampDur_cases (r w : ℚ) :
    clampDur r w = r ∨ (clampDur r w = w ∧ w ≤ r ∧ 1 ≤ r - w) := by
  rw [clampDur]
  split_ifs with h1 h2
  · exact Or.inl rfl
  · exact Or.inl rfl
  · exact Or.inr ⟨rfl, by linarith, by linarith⟩

theorem randomLoop_stop (videos : List VideoFile) (target : ℚ) (draws : RandomDraws)
    (fuel : ℕ) (len : ℚ) (safety k : ℕ)
    (h : ¬(len < target ∧ safety < 100)) :
    randomLoop videos target draws fuel len safety k = [] := by
  cases fuel with
  | zero => rfl
  | succ n => simp only [randomLoop, if_neg h]

/-- Core invariant of the random-cut loop when every file is readable and at
least `max_dur + 1` seconds long (so no skip ever fires): sub-segments fill
the remaining budget to within 1/20 s of the target without overshooting it,
every non-final sub-segment's length is an unclamped draw in
`[min_dur, max_dur]`, and the final one is in `(1/20, max_dur + 1)`. -/
theorem randomLoop_longfiles_spec (videos : List VideoFile)
    (target min_dur max_dur : ℚ) (draws : RandomDraws)
    (hmin : 1/20 < min_dur)
    (hvid : ∀ v ∈ videos, v.readable = true ∧ max_dur + 1 ≤ v.duration)
    (hdur : ∀ j, min_dur ≤ draws.dur j ∧ draws.dur j ≤ max_dur)
    (hchoice : ∀ j, draws.choice j < videos.length) :
    ∀ (fuel : ℕ) (len : ℚ) (safety k : ℕ),
      (⌈(target - len) * 20⌉).toNat < fuel → safety < 100 →
      (target - 1/20 ≤ len + segTotal (randomLoop videos target draws fuel len safety k) ∧
       len + segTotal (randomLoop videos target draws fuel len safety k) ≤
         max len target) ∧
      (∀ s ∈ (randomLoop videos target draws fuel len safety k).dropLast,
        min_dur ≤ s.duration ∧ s.duration ≤ max_dur) ∧
      (∀ s, (randomLoop videos target draws fuel len safety k).getLast? = some s →
        1/20 < s.duration ∧ s.duration < max_dur + 1) := by
  intro fuel
  induction fuel with
  | zero => intro len safety k hfuel _; exact absurd hfuel (Nat.not_lt_zero _)
  | succ n ih =>
      intro len safety k hfuel hsafety
      by_cases hlt : len < target
      · -- loop condition holds
        have hcond : len < target ∧ safety < 100 := ⟨hlt, hsafety⟩
        have hd := hdur k
        set d := clampDur (target - len) (draws.dur k) with hd_def
        have hd_le : d ≤ target - len := clampDur_le_remaining _ _
        have hd_lt : d < max_dur + 1 := clampDur_lt_succ_max _ _ _ hd.2
        by_cases hbreak : d ≤ 1/20
        · -- `if this_dur <= 0.05: break`
          have hrem : target - len ≤ 1/20 := by
            rcases clampDur_cases (target - len) (draws.dur k) with hc | ⟨hc, _, _⟩
            · rw [← hd_def] at hc; linarith [hc ▸ hbreak]
            · rw [← hd_def] at hc
              exfalso
              have := hd.1
              rw [hc] at hbreak
              linarith
          have hstep : randomLoop videos target draws (n+1) len safety k = [] := by
            simp only [randomLoop, if_pos hcond, ← hd_def, if_pos hbreak]
          rw [hstep]
          refine ⟨⟨?_, ?_⟩, by simp, by simp⟩
          · simp only [segTotal, List.map_nil, List.sum_nil]
            linarith
          · simp only [segTotal, List.map_nil, List.sum_nil, add_zero]
            exact le_max_left _ _
        · -- productive iteration: under the long-files hypothesis no skip fires
          have hv : videos.getD (draws.choice k) defaultVideo ∈ videos :=
            getD_mem_of_lt videos (draws.choice k) (hchoice k)
          obtain ⟨hvread, hvdur⟩ := hvid _ hv
          have hnoskip : ¬((videos.getD (draws.choice k) defaultVideo).duration < d) :=
            not_lt.mpr (le_of_lt (lt_of_lt_of_le hd_lt hvdur))
          have hstep : randomLoop videos target draws (n+1) len safety k =
              ⟨(videos.getD (draws.choice k) defaultVideo).path,
               draws.frac k * ((videos.getD (draws.choice k) defaultVideo).duration - d),
               draws.frac k * ((videos.getD (draws.choice k) defaultVideo).duration - d) + d,
               d⟩ :: randomLoop videos target draws n (len + d) safety (k+1) := by
            simp only [randomLoop, if_pos hcond, ← hd_def, if_neg hbreak, hvread,
              if_pos, if_neg hnoskip]
          have hdpos : 1/20 < d := not_le.mp hbreak
          have hfuel2 : (⌈(target - (len + d)) * 20⌉).toNat < n := by
            have harith : (target - (len + d)) * 20 ≤ (target - len) * 20 - 1 := by nlinarith
            have hmono := Int.ceil_mono harith
            rw [show ((target - len) * 20 - 1 : ℚ) = ((target - len) * 20) - (1:ℤ) by push_cast; ring,
              Int.ceil_sub_int] at hmono
            have hpos : (0:ℤ) < ⌈(target - len) * 20⌉ := by
              rw [Int.ceil_pos]
              nlinarith
            omega
          obtain ⟨⟨ihlow, ihhigh⟩, ihdrop, ihlast⟩ := ih (len + d) safety (k+1) hfuel2 hsafety
          rw [hstep]
          have hsum : segTotal (⟨(videos.getD (draws.choice k) defaultVideo).path,
              draws.frac k * ((videos.getD (draws.choice k) defaultVideo).duration - d),
              draws.frac k * ((videos.getD (draws.choice k) defaultVideo).duration - d) + d,
              d⟩ :: randomLoop videos target draws n (len + d) safety (k+1)) =
              d + segTotal (randomLoop videos target draws n (len + d) safety (k+1)) := by
            simp [segTotal]
          refine ⟨⟨?_, ?_⟩, ?_, ?_⟩
          · rw [hsum]; linarith
          · rw [hsum]
            have h1 : len + d ≤ target := by linarith
            have h2 : max (len + d) target = target := max_eq_right h1
            have h3 : max len target = target := max_eq_right (le_of_lt hlt)
            rw [h3]; rw [h2] at ihhigh; linarith
          · -- all but the last sub-segment are unclamped draws in [min_dur, max_dur]
            intro s hs
            cases hrest : randomLoop videos target draws n (len + d) safety (k+1) with
            | nil => rw [hrest] at hs; simp at hs
            | cons x xs =>
                rw [hrest, List.dropLast_cons₂] at hs
                rcases List.mem_cons.mp hs with rfl | hs2
                · -- the head is non-final, so the recursion produced content:
                  -- the clamped cases would have exhausted the budget exactly
                  rcases clampDur_cases (target - len) (draws.dur k) with hc | ⟨hc, _, _⟩
                  · rw [← hd_def] at hc
                    exfalso
                    have : len + d = target := by rw [hc]; ring
                    have := randomLoop_stop videos target draws n (len + d) safety (k+1)
                      (by rw [this]; simp)
                    rw [this] at hrest
                    exact List.cons_ne_nil x xs hrest.symm
                  · rw [← hd_def] at hc
                    simp only
                    rw [hc]
                    exact ⟨hd.1, hd.2⟩
                · exact ihdrop s (by rw [hrest]; exact hs2)
          · intro s hs
            cases hrest : randomLoop videos target draws n (len + d) safety (k+1) with
            | nil =>
                rw [hrest] at hs
                simp only [List.getLast?_singleton, Option.some.injEq] at hs
                rw [← hs]
                exact ⟨hdpos, hd_lt⟩
            | cons x xs =>
                rw [hrest, List.getLast?_cons_cons] at hs
                exact ihlast s (by rw [hrest]; exact hs)
      · -- `current_len >= target`: the loop exits with the budget filled
        have hstop : randomLoop videos target draws (n+1) len safety k = [] :=
          randomLoop_stop videos target draws (n+1) len safety k
            (by intro hc; exact hlt hc.1)
        rw [hstop]
        refine ⟨⟨?_, ?_⟩, by simp, by simp⟩
        · simp only [segTotal, List.map_nil, List.sum_nil]
          linarith [not_lt.mp hlt]
        · simp only [segTotal, List.map_nil, List.sum_nil, add_zero]
          exact le_max_left _ _

theorem segTotal_upper (a b : ℚ) :
    ∀ (l : List Segment), l ≠ [] →
      (∀ s ∈ l.dropLast, s.duration ≤ a) →
      (∀ s, l.getLast? = some s → s.duration ≤ b) →
      segTotal l ≤ a * ((l.length : ℚ) - 1) + b := by
  intro l
  induction l with
  | nil => intro h; exact absurd rfl h
  | cons x t ih =>
      intro _ hdrop hlast
      cases t with
      | nil =>
          have := hlast x (by simp)
          simp only [segTotal, List.map_cons, List.map_nil, List.sum_cons,
            List.sum_nil, add_zero, List.length_cons, List.length_nil]
          push_cast
          linarith
      | cons y t2 =>
          have hx : x.duration ≤ a :=
            hdrop x (by rw [List.dropLast_cons₂]; exact List.mem_cons_self _ _)
          have ihh := ih (by simp)
            (fun s hs => hdrop s (by rw [List.dropLast_cons₂]; exact List.mem_cons_of_mem _ hs))
            (fun s hs => hlast s (by rw [List.getLast?_cons_cons]; exact hs))
          have hsum : segTotal (x :: y :: t2) = x.duration + segTotal (y :: t2) := by
            simp [segTotal]
          have hlen : ((x :: y :: t2).length : ℚ) - 1 = (((y :: t2).length : ℚ) - 1) + 1 := by
            push_cast [List.length_cons]
            ring
          rw [hsum, hlen]
          have hexp : a * ((((y :: t2).length : ℚ) - 1) + 1) =
              a * (((y :: t2).length : ℚ) - 1) + a := by ring
          rw [hexp]
          linarith

theorem segTotal_lower (a c : ℚ) :
    ∀ (l : List Segment), l ≠ [] →
      (∀ s ∈ l.dropLast, a ≤ s.duration) →
      (∀ s, l.getLast? = some s → c ≤ s.duration) →
      a * ((l.length : ℚ) - 1) + c ≤ segTotal l := by
  intro l
  induction l with
  | nil => intro h; exact absurd rfl h
  | cons x t ih =>
      intro _ hdrop hlast
      cases t with
      | nil =>
          have := hlast x (by simp)
          simp only [segTotal, List.map_cons, List.map_nil, List.sum_cons,
            List.sum_nil, add_zero, List.length_cons, List.length_nil]
          push_cast
          linarith
      | cons y t2 =>
          have hx : a ≤ x.duration :=
            hdrop x (by rw [List.dropLast_cons₂]; exact List.mem_cons_self _ _)
          have ihh := ih (by simp)
            (fun s hs => hdrop s (by rw [List.dropLast_cons₂]; exact List.mem_cons_of_mem _ hs))
            (fun s hs => hlast s (by rw [List.getLast?_cons_cons]; exact hs))
          have hsum : segTotal (x :: y :: t2) = x.duration + segTotal (y :: t2) := by
            simp [segTotal]
          have hlen : ((x :: y :: t2).length : ℚ) - 1 = (((y :: t2).length : ℚ) - 1) + 1 := by
            push_cast [List.length_cons]
            ring
          rw [hsum, hlen]
          have hexp : a * ((((y :: t2).length : ℚ) - 1) + 1) =
              a * (((y :: t2).length : ℚ) - 1) + a := by ring
          rw [hexp]
          linarith

/-- C8 (amended: additionally requires `minSegLen > 0.05`, the loop's
early-exit threshold): for a random-slice call over a folder of readable
files all at least `maxSegLen + 1` seconds long, the returned sub-segments
sum to within 0.05 s of the requested total `T > 0`, every sub-segment except
the final one has its unclamped drawn length in `[minSegLen, maxSegLen]`, the
final one lies in `(0.05, maxSegLen + 1)`; and a 10 s request with bounds
`[2, 4]` yields between 3 and 5 sub-segments. -/
theorem C8_random_slice_totals (st : FolderState) (target min_dur max_dur : ℚ)
    (draws : RandomDraws)
    (htarget : 0 < target) (hmin : 1/20 < min_dur) (hmm : min_dur ≤ max_dur)
    (hne : st.videos ≠ [])
    (hvid : ∀ v ∈ st.videos, v.readable = true ∧ max_dur + 1 ≤ v.duration)
    (hdur : ∀ j, min_dur ≤ draws.dur j ∧ draws.dur j ≤ max_dur)
    (hchoice : ∀ j, draws.choice j < st.videos.length) :
    |segTotal (get_random_cut_clip st target min_dur max_dur draws).2 - target| ≤ 1/20 ∧
    (∀ s ∈ (get_random_cut_clip st target min_dur max_dur draws).2.dropLast,
      min_dur ≤ s.duration ∧ s.duration ≤ max_dur) ∧
    (∀ s, (get_random_cut_clip st target min_dur max_dur draws).2.getLast? = some s →
      1/20 < s.duration ∧ s.duration < max_dur + 1) ∧
    (target = 10 → min_dur = 2 → max_dur = 4 →
      3 ≤ (get_random_cut_clip st target min_dur max_dur draws).2.length ∧
      (get_random_cut_clip st target min_dur max_dur draws).2.length ≤ 5) := by
  have hwrap : (get_random_cut_clip st target min_dur max_dur draws).2 =
      randomLoop st.videos target draws (randomBigFuel target) 0 0 0 := by
    simp only [get_random_cut_clip, if_neg hne]
    split_ifs with h
    · simpa using h.symm
    · rfl
  have hfuel0 : (⌈(target - 0) * 20⌉).toNat < randomBigFuel target := by
    rw [sub_zero, randomBigFuel]
    omega
  obtain ⟨⟨hlow, hhigh⟩, hdrop, hlast⟩ := randomLoop_longfiles_spec st.videos target
    min_dur max_dur draws hmin hvid hdur hchoice (randomBigFuel target) 0 0 0
    hfuel0 (by norm_num)
  rw [zero_add] at hlow hhigh
  rw [max_eq_right htarget.le] at hhigh
  rw [hwrap]
  refine ⟨?_, hdrop, hlast, ?_⟩
  · rw [abs_le]
    constructor <;> linarith
  · intro h10 hm2 hm4
    subst h10 hm2 hm4
    set L := randomLoop st.videos 10 draws (randomBigFuel 10) 0 0 0 with hL
    have hneL : L ≠ [] := by
      intro hnil
      rw [hnil] at hlow
      simp [segTotal] at hlow
      linarith
    have hup := segTotal_upper 4 5 L hneL
      (fun s hs => (hdrop s hs).2)
      (fun s hs => le_of_lt (by linarith [(hlast s hs).2] : s.duration < 5))
    have hlo := segTotal_lower 2 (1/20) L hneL
      (fun s hs => (hdrop s hs).1)
      (fun s hs => le_of_lt (hlast s hs).1)
    constructor
    · have h1 : (2:ℚ) < (L.length : ℚ) := by linarith
      have h2 : (2:ℕ) < L.length := by exact_mod_cast h1
      omega
    · have h1 : (L.length : ℚ) < 6 := by linarith
      have h2 : L.length < (6:ℕ) := by exact_mod_cast h1
      omega

/-- One loop iteration that breaks at `if this_dur <= 0.05` returns no
segments (`matcher.py` lines 145-146). -/
theorem randomLoop_break (videos : List VideoFile) (target : ℚ) (draws : RandomDraws)
    (fuel : ℕ) (len : ℚ) (safety k : ℕ)
    (hc : len < target ∧ safety < 100)
    (hbreak : clampDur (target - len) (draws.dur k) ≤ 1/20) :
    randomLoop videos target draws (fuel+1) len safety k = [] := by
  simp only [randomLoop, if_pos hc, if_pos hbreak]

/-- One loop iteration whose chosen file is too short for the clamped drawn
length is a pure retry: nothing is taken from the file, not even partially
(`matcher.py` lines 161-173). -/
theorem randomLoop_skip_short (videos : List VideoFile) (target : ℚ)
    (draws : RandomDraws) (fuel : ℕ) (len : ℚ) (safety k : ℕ)
    (hc : len < target ∧ safety < 100)
    (hbreak : ¬ clampDur (target - len) (draws.dur k) ≤ 1/20)
    (hread : (videos.getD (draws.choice k) defaultVideo).readable = true)
    (hshort : (videos.getD (draws.choice k) defaultVideo).duration <
      clampDur (target - len) (draws.dur k)) :
    randomLoop videos target draws (fuel+1) len safety k =
      randomLoop videos target draws fuel len (safety+1) (k+1) := by
  simp only [randomLoop, if_pos hc, if_neg hbreak, hread, if_pos, if_pos hshort]

/-- One loop iteration whose chosen file fits the clamped drawn length takes
exactly that length from it (`matcher.py` lines 174-191). -/
theorem randomLoop_serve (videos : List VideoFile) (target : ℚ)
    (draws : RandomDraws) (fuel : ℕ) (len : ℚ) (safety k : ℕ)
    (hc : len < target ∧ safety < 100)
    (hbreak : ¬ clampDur (target - len) (draws.dur k) ≤ 1/20)
    (hread : (videos.getD (draws.choice k) defaultVideo).readable = true)
    (hfit : ¬ (videos.getD (draws.choice k) defaultVideo).duration <
      clampDur (target - len) (draws.dur k)) :
    randomLoop videos target draws (fuel+1) len safety k =
      ⟨(videos.getD (draws.choice k) defaultVideo).path,
       draws.frac k * ((videos.getD (draws.choice k) defaultVideo).duration -
         clampDur (target - len) (draws.dur k)),
       draws.frac k * ((videos.getD (draws.choice k) defaultVideo).duration -
         clampDur (target - len) (draws.dur k)) +
         clampDur (target - len) (draws.dur k),
       clampDur (target - len) (draws.dur k)⟩ ::
        randomLoop videos target draws fuel
          (len + clampDur (target - len) (draws.dur k)) safety (k+1) := by
  simp only [randomLoop, if_pos hc, if_neg hbreak, hread, if_pos, if_neg hfit]

/-- When every file is shorter than both the segment-length lower bound and
the requested total, every iteration of the loop is a retry and nothing is
ever collected. -/
theorem randomLoop_allshort (videos : List VideoFile) (target min_dur : ℚ)
    (draws : RandomDraws)
    (hdur : ∀ j, min_dur ≤ draws.dur j)
    (hchoice : ∀ j, draws.choice j < videos.length)
    (hshort : ∀ v ∈ videos, v.duration < min min_dur target) :
    ∀ (fuel : ℕ) (safety k : ℕ),
      randomLoop videos target draws fuel 0 safety k = [] := by
  intro fuel
  induction fuel with
  | zero => intro safety k; rfl
  | succ n ih =>
      intro safety k
      by_cases hc : (0:ℚ) < target ∧ safety < 100
      · have hdmin : min min_dur target ≤ clampDur (target - 0) (draws.dur k) := by
          rw [sub_zero, clampDur]
          split_ifs with h1 h2
          · exact min_le_right _ _
          · exact min_le_right _ _
          · exact le_trans (min_le_left _ _) (hdur k)
        by_cases hbreak : clampDur (target - 0) (draws.dur k) ≤ 1/20
        · exact randomLoop_break videos target draws n 0 safety k hc hbreak
        · have hv : videos.getD (draws.choice k) defaultVideo ∈ videos :=
            getD_mem_of_lt videos (draws.choice k) (hchoice k)
          have hsh : (videos.getD (draws.choice k) defaultVideo).duration <
              clampDur (target - 0) (draws.dur k) :=
            lt_of_lt_of_le (hshort _ hv) hdmin
          by_cases hread : (videos.getD (draws.choice k) defaultVideo).readable = true
          · rw [randomLoop_skip_short videos target draws n 0 safety k hc hbreak hread hsh]
            exact ih (safety+1) (k+1)
          · have hstep : randomLoop videos target draws (n+1) 0 safety k =
                randomLoop videos target draws n 0 (safety+1) (k+1) := by
              simp only [randomLoop, if_pos hc, if_neg hbreak]
              rw [if_neg hread]
            rw [hstep]
            exact ih (safety+1) (k+1)
      · exact randomLoop_stop videos target draws (n+1) 0 safety k hc

/-- Witness for C8 at a folder with one 100 s file, a 10 s request with
bounds [2, 4], and a draw stream that always draws 3 s. -/
theorem C8_random_slice_totals_witness :
    (0:ℚ) < 10 ∧ (1:ℚ)/20 < 2 ∧ (2:ℚ) ≤ 4 ∧
    (|segTotal (get_random_cut_clip ⟨[⟨1,100,true⟩],0,0⟩ 10 2 4
        ⟨fun _ => 3, fun _ => 0, fun _ => 0⟩).2 - 10| ≤ 1/20 ∧
     (∀ s ∈ (get_random_cut_clip ⟨[⟨1,100,true⟩],0,0⟩ 10 2 4
        ⟨fun _ => 3, fun _ => 0, fun _ => 0⟩).2.dropLast,
       2 ≤ s.duration ∧ s.duration ≤ 4) ∧
     (∀ s, (get_random_cut_clip ⟨[⟨1,100,true⟩],0,0⟩ 10 2 4
        ⟨fun _ => 3, fun _ => 0, fun _ => 0⟩).2.getLast? = some s →
       1/20 < s.duration ∧ s.duration < 4 + 1) ∧
     ((10:ℚ) = 10 → (2:ℚ) = 2 → (4:ℚ) = 4 →
       3 ≤ (get_random_cut_clip ⟨[⟨1,100,true⟩],0,0⟩ 10 2 4
         ⟨fun _ => 3, fun _ => 0, fun _ => 0⟩).2.length ∧
       (get_random_cut_clip ⟨[⟨1,100,true⟩],0,0⟩ 10 2 4
         ⟨fun _ => 3, fun _ => 0, fun _ => 0⟩).2.length ≤ 5)) :=
  ⟨by norm_num, by norm_num, by norm_num,
   C8_random_slice_totals ⟨[⟨1,100,true⟩],0,0⟩ 10 2 4
     ⟨fun _ => 3, fun _ => 0, fun _ => 0⟩
     (by norm_num) (by norm_num) (by norm_num) (by simp)
     (by intro v hv; simp only [List.mem_singleton] at hv; subst hv; norm_num)
     (by intro j; norm_num) (by intro j; simp)⟩

/-- Counterexample to C8 as stated: bounds `0 < minSegLen = 1/50 < maxSegLen
= 1/25` satisfy the claim's hypotheses, the folder has one readable 100 s
file, yet a 10 s request returns no sub-segments (the drawn length 3/100
falls at or below the loop's `this_dur <= 0.05` exit), so the total 0 is not
within 0.05 s of 10. -/
theorem C8_counterexample_small_bounds :
    (0:ℚ) < 1/50 ∧ (1:ℚ)/50 < 1/25 ∧ (0:ℚ) < 10 ∧
    get_random_cut_clip ⟨[⟨1,100,true⟩],0,0⟩ 10 (1/50) (1/25)
      ⟨fun _ => 3/100, fun _ => 0, fun _ => 0⟩ = (none, []) ∧
    ¬ (|segTotal (get_random_cut_clip ⟨[⟨1,100,true⟩],0,0⟩ 10 (1/50) (1/25)
        ⟨fun _ => 3/100, fun _ => 0, fun _ => 0⟩).2 - 10| ≤ 1/20) := by
  have hc : (⌈(10:ℚ)*20⌉ : ℤ) = 200 := by norm_num
  have hf : randomBigFuel 10 = 302 := by rw [randomBigFuel, hc]; rfl
  have h1 : randomLoop [⟨1,100,true⟩] 10 ⟨fun _ => 3/100, fun _ => 0, fun _ => 0⟩
      302 0 0 0 = [] :=
    randomLoop_break [⟨1,100,true⟩] 10 ⟨fun _ => 3/100, fun _ => 0, fun _ => 0⟩ 301 0 0 0
      ⟨by norm_num, by norm_num⟩ (by norm_num [clampDur])
  have h2 : get_random_cut_clip ⟨[⟨1,100,true⟩],0,0⟩ 10 (1/50) (1/25)
      ⟨fun _ => 3/100, fun _ => 0, fun _ => 0⟩ = (none, []) := by
    simp only [get_random_cut_clip, hf, h1]
    norm_num
  refine ⟨by norm_num, by norm_num, by norm_num, h2, ?_⟩
  rw [h2]
  norm_num [segTotal]

/-- C10 (amended): an iteration of the random-cut loop whose chosen file is
shorter than the clamped drawn length `this_dur` is a pure retry — nothing,
not even a partial span, is taken from the file (first conjunct); the
`vid_len < 0.5` test is redundant: whenever `this_dur` fits inside the chosen
file the full `this_dur` is served, even from a file shorter than 0.5 s
(second conjunct); and for a folder whose every file is shorter than both
`minSegLen` and the requested total, the call returns the no-content pair
`(None, [])` — the loop retries until its 100-retry cap or its early-exit
threshold, collecting nothing (third conjunct). -/
theorem C10_short_files_random_mode :
    (∀ (videos : List VideoFile) (target : ℚ) (draws : RandomDraws)
        (fuel : ℕ) (len : ℚ) (safety k : ℕ),
      len < target → safety < 100 →
      ¬ clampDur (target - len) (draws.dur k) ≤ 1/20 →
      (videos.getD (draws.choice k) defaultVideo).readable = true →
      (videos.getD (draws.choice k) defaultVideo).duration <
        clampDur (target - len) (draws.dur k) →
      randomLoop videos target draws (fuel+1) len safety k =
        randomLoop videos target draws fuel len (safety+1) (k+1)) ∧
    (∀ (videos : List VideoFile) (target : ℚ) (draws : RandomDraws)
        (fuel : ℕ) (len : ℚ) (safety k : ℕ),
      len < target → safety < 100 →
      ¬ clampDur (target - len) (draws.dur k) ≤ 1/20 →
      (videos.getD (draws.choice k) defaultVideo).readable = true →
      ¬ (videos.getD (draws.choice k) defaultVideo).duration <
        clampDur (target - len) (draws.dur k) →
      randomLoop videos target draws (fuel+1) len safety k =
        ⟨(videos.getD (draws.choice k) defaultVideo).path,
         draws.frac k * ((videos.getD (draws.choice k) defaultVideo).duration -
           clampDur (target - len) (draws.dur k)),
         draws.frac k * ((videos.getD (draws.choice k) defaultVideo).duration -
           clampDur (target - len) (draws.dur k)) +
           clampDur (target - len) (draws.dur k),
         clampDur (target - len) (draws.dur k)⟩ ::
          randomLoop videos target draws fuel
            (len + clampDur (target - len) (draws.dur k)) safety (k+1)) ∧
    (∀ (st : FolderState) (target min_dur max_dur : ℚ) (draws : RandomDraws),
      (∀ j, min_dur ≤ draws.dur j) →
      (∀ j, draws.choice j < st.videos.length) →
      (∀ v ∈ st.videos, v.duration < min min_dur target) →
      get_random_cut_clip st target min_dur max_dur draws = (none, [])) := by
  refine ⟨?_, ?_, ?_⟩
  · intro videos target draws fuel len safety k h1 h2 h3 h4 h5
    exact randomLoop_skip_short videos target draws fuel len safety k ⟨h1, h2⟩ h3 h4 h5
  · intro videos target draws fuel len safety k h1 h2 h3 h4 h5
    exact randomLoop_serve videos target draws fuel len safety k ⟨h1, h2⟩ h3 h4 h5
  · intro st target min_dur max_dur draws hdur hchoice hshort
    by_cases hne : st.videos = []
    · simp [get_random_cut_clip, hne]
    · have h := randomLoop_allshort st.videos target min_dur draws hdur hchoice hshort
        (randomBigFuel target) 0 0
      simp [get_random_cut_clip, if_neg hne, h]

/-- Witness for C10's first conjunct: a 1 s file against a 3 s draw on a 10 s
request is skipped without any partial take. -/
theorem C10_short_files_random_mode_witness :
    (0:ℚ) < 10 ∧ (0:ℕ) < 100 ∧
    ¬ clampDur ((10:ℚ) - 0) ((⟨fun _ => 3, fun _ => 0, fun _ => 0⟩ : RandomDraws).dur 0) ≤ 1/20 ∧
    (([⟨1,1,true⟩] : List VideoFile).getD
      ((⟨fun _ => 3, fun _ => 0, fun _ => 0⟩ : RandomDraws).choice 0) defaultVideo).readable = true ∧
    (([⟨1,1,true⟩] : List VideoFile).getD
      ((⟨fun _ => 3, fun _ => 0, fun _ => 0⟩ : RandomDraws).choice 0) defaultVideo).duration <
      clampDur ((10:ℚ) - 0) ((⟨fun _ => 3, fun _ => 0, fun _ => 0⟩ : RandomDraws).dur 0) ∧
    randomLoop [⟨1,1,true⟩] 10 ⟨fun _ => 3, fun _ => 0, fun _ => 0⟩ 1 0 0 0 =
      randomLoop [⟨1,1,true⟩] 10 ⟨fun _ => 3, fun _ => 0, fun _ => 0⟩ 0 0 1 1 :=
  ⟨by norm_num, by norm_num, by norm_num [clampDur], by simp [List.getD],
   by norm_num [clampDur, List.getD],
   C10_short_files_random_mode.1 [⟨1,1,true⟩] 10 ⟨fun _ => 3, fun _ => 0, fun _ => 0⟩
     0 0 0 0 (by norm_num) (by norm_num) (by norm_num [clampDur])
     (by simp [List.getD]) (by norm_num [clampDur, List.getD])⟩

/-- Counterexample to C10 as stated: a readable 0.45 s file (shorter than
0.5 s) is not skipped but fully serves a 0.4 s clamped request; and a folder
whose single file (1.5 s) is shorter than `minSegLen = 2` still serves a 1 s
request rather than returning `(None, [])`. -/
theorem C10_counterexample_short_served :
    (9:ℚ)/20 < 1/2 ∧
    get_random_cut_clip ⟨[⟨1,9/20,true⟩],0,0⟩ (2/5) 2 4
      ⟨fun _ => 3, fun _ => 0, fun _ => 0⟩ =
      (some [⟨1, 0, 2/5, 2/5⟩], [⟨1, 0, 2/5, 2/5⟩]) ∧
    (3:ℚ)/2 < 2 ∧
    get_random_cut_clip ⟨[⟨1,3/2,true⟩],0,0⟩ 1 2 4
      ⟨fun _ => 3, fun _ => 0, fun _ => 0⟩ =
      (some [⟨1, 0, 1, 1⟩], [⟨1, 0, 1, 1⟩]) := by
  refine ⟨by norm_num, ?_, by norm_num, ?_⟩
  · have hc : (⌈(2/5:ℚ)*20⌉ : ℤ) = 8 := by norm_num
    have hf : randomBigFuel (2/5) = 110 := by rw [randomBigFuel, hc]; rfl
    have hserve := randomLoop_serve [⟨1,9/20,true⟩] (2/5)
      ⟨fun _ => 3, fun _ => 0, fun _ => 0⟩ 109 0 0 0
      ⟨by norm_num, by norm_num⟩ (by norm_num [clampDur])
      (by simp [List.getD]) (by norm_num [clampDur, List.getD])
    have hstop : randomLoop [⟨1,9/20,true⟩] (2/5)
        ⟨fun _ => 3, fun _ => 0, fun _ => 0⟩ 109
        (0 + clampDur ((2/5) - 0) 3) 0 1 = [] := by
      refine randomLoop_stop _ _ _ _ _ _ _ ?_
      intro h
      have := h.1
      rw [clampDur] at this
      norm_num at this
    have h1 : randomLoop [⟨1,9/20,true⟩] (2/5)
        ⟨fun _ => 3, fun _ => 0, fun _ => 0⟩ 110 0 0 0 = [⟨1, 0, 2/5, 2/5⟩] := by
      rw [show (110:ℕ) = 109 + 1 from rfl, hserve, hstop]
      norm_num [clampDur, List.getD]
    simp only [get_random_cut_clip, hf, h1]
    norm_num
  · have hc : (⌈(1:ℚ)*20⌉ : ℤ) = 20 := by norm_num
    have hf : randomBigFuel 1 = 122 := by rw [randomBigFuel, hc]; rfl
    have hserve := randomLoop_serve [⟨1,3/2,true⟩] 1
      ⟨fun _ => 3, fun _ => 0, fun _ => 0⟩ 121 0 0 0
      ⟨by norm_num, by norm_num⟩ (by norm_num [clampDur])
      (by simp [List.getD]) (by norm_num [clampDur, List.getD])
    have hstop : randomLoop [⟨1,3/2,true⟩] 1
        ⟨fun _ => 3, fun _ => 0, fun _ => 0⟩ 121
        (0 + clampDur (1 - 0) 3) 0 1 = [] := by
      refine randomLoop_stop _ _ _ _ _ _ _ ?_
      intro h
      have := h.1
      rw [clampDur] at this
      norm_num at this
    have h1 : randomLoop [⟨1,3/2,true⟩] 1
        ⟨fun _ => 3, fun _ => 0, fun _ => 0⟩ 122 0 0 0 = [⟨1, 0, 1, 1⟩] := by
      rw [show (122:ℕ) = 121 + 1 from rfl, hserve, hstop]
      norm_num [clampDur, List.getD]
    simp only [get_random_cut_clip, hf, h1]
    norm_num

/-- A decoded clip handle: pixel dimensions plus an abstract content field
sampled at spatial coordinates (the visual content behind a moviepy clip). -/
structure Clip (α : Type) where
  w : ℚ
  h : ℚ
  pixel : ℚ → ℚ → α

/-- `clip.resize(scale_factor)` with a single scalar: both dimensions scale by
the same factor and the content is resampled accordingly. -/
def Clip.resize {α : Type} (c : Clip α) (factor : ℚ) : Clip α :=
  ⟨c.w * factor, c.h * factor, fun x y => c.pixel (x / factor) (y / factor)⟩

/-- `clip.crop(width=, height=, x_center=, y_center=)`: a `width × height`
window centred at `(x_center, y_center)` (moviepy derives the corner as
`x1 = x_center - width/2`, `y1 = y_center - height/2`). -/
def Clip.crop {α : Type} (c : Clip α) (width height x_center y_center : ℚ) : Clip α :=
  ⟨width, height,
   fun x y => c.pixel (x + (x_center - width / 2)) (y + (y_center - height / 2))⟩

/-- `resize_and_crop` (`matcher.py` lines 229-252): skip when dimensions
already match; else resize by the single scalar `max(target_w/w, target_h/h)`
and centre-crop to exactly the target size. -/
def resize_and_crop {α : Type} (c : Clip α) (target_size : ℚ × ℚ) : Clip α :=
  if c.w = target_size.1 ∧ c.h = target_size.2 then c
  else
    let scale_factor := max (target_size.1 / c.w) (target_size.2 / c.h)
    let c2 := c.resize scale_factor
    c2.crop target_size.1 target_size.2 (c2.w / 2) (c2.h / 2)

/-- C9: `resize_and_crop` returns the clip itself unchanged when its
dimensions already equal the target; otherwise the result is exactly
`target_w × target_h` and every output pixel samples the source through ONE
uniform scale factor `max(target_w/w, target_h/h)` on both axes composed with
a centred offset — the content is never stretched by per-axis factors. -/
theorem C9_resize_and_crop_uniform {α : Type} (c : Clip α) (tw th : ℚ) :
    (c.w = tw ∧ c.h = th → resize_and_crop c (tw, th) = c) ∧
    (¬(c.w = tw ∧ c.h = th) →
      (resize_and_crop c (tw, th)).w = tw ∧
      (resize_and_crop c (tw, th)).h = th ∧
      (∀ x y, (resize_and_crop c (tw, th)).pixel x y =
        c.pixel ((x + (c.w * max (tw / c.w) (th / c.h) - tw) / 2) /
            max (tw / c.w) (th / c.h))
          ((y + (c.h * max (tw / c.w) (th / c.h) - th) / 2) /
            max (tw / c.w) (th / c.h)))) := by
  constructor
  · intro h
    rw [resize_and_crop, if_pos h]
  · intro h
    rw [resize_and_crop, if_neg h]
    refine ⟨rfl, rfl, ?_⟩
    intro x y
    simp only [Clip.crop, Clip.resize]
    congr 1 <;> ring

/-- Witness for C9 at a 2×1 clip resized into a 4×4 target, plus the no-op
branch at a clip already 4×4. -/
theorem C9_resize_and_crop_uniform_witness :
    ((⟨4, 4, fun x y => (x, y)⟩ : Clip (ℚ × ℚ)).w = 4 ∧
      (⟨4, 4, fun x y => (x, y)⟩ : Clip (ℚ × ℚ)).h = 4) ∧
    resize_and_crop (⟨4, 4, fun x y => (x, y)⟩ : Clip (ℚ × ℚ)) (4, 4) =
      (⟨4, 4, fun x y => (x, y)⟩ : Clip (ℚ × ℚ)) ∧
    ¬(((⟨2, 1, fun x y => (x, y)⟩ : Clip (ℚ × ℚ)).w = 4) ∧
      ((⟨2, 1, fun x y => (x, y)⟩ : Clip (ℚ × ℚ)).h = 4)) ∧
    ((resize_and_crop (⟨2, 1, fun x y => (x, y)⟩ : Clip (ℚ × ℚ)) (4, 4)).w = 4 ∧
     (resize_and_crop (⟨2, 1, fun x y => (x, y)⟩ : Clip (ℚ × ℚ)) (4, 4)).h = 4 ∧
     (∀ x y, (resize_and_crop (⟨2, 1, fun x y => (x, y)⟩ : Clip (ℚ × ℚ)) (4, 4)).pixel x y =
       (⟨2, 1, fun x y => (x, y)⟩ : Clip (ℚ × ℚ)).pixel
         ((x + ((2:ℚ) * max ((4:ℚ) / 2) ((4:ℚ) / 1) - 4) / 2) / max ((4:ℚ) / 2) ((4:ℚ) / 1))
         ((y + ((1:ℚ) * max ((4:ℚ) / 2) ((4:ℚ) / 1) - 4) / 2) / max ((4:ℚ) / 2) ((4:ℚ) / 1)))) :=
  ⟨⟨rfl, rfl⟩,
   (C9_resize_and_crop_uniform (⟨4, 4, fun x y => (x, y)⟩ : Clip (ℚ × ℚ)) 4 4).1
     ⟨rfl, rfl⟩,
   by norm_num,
   (C9_resize_and_crop_uniform (⟨2, 1, fun x y => (x, y)⟩ : Clip (ℚ × ℚ)) 4 4).2
     (by norm_num)⟩

/-- The method names the `Matcher` class defines (`matcher.py` lines 11-252:
`__init__`, `_init_folder_state`, `get_ordered_clip`, `get_random_cut_clip`,
`resize_and_crop`). -/
def matcherMethods : List String :=
  ["__init__", "_init_folder_state", "get_ordered_clip", "get_random_cut_clip",
   "resize_and_crop"]

/-- Python attribute lookup on a `Matcher` instance: calling a method
resolves only if the class defines the name, otherwise it raises
`AttributeError`. -/
def callMatcherMethod (name : String) : Except String Unit :=
  if name ∈ matcherMethods then .ok ()
  else .error ("AttributeError: 'Matcher' object has no attribute '" ++ name ++ "'")

/-- The first statement of every batch iteration of `pipeline.run`:
`self.matcher.reset_usage()` (`pipeline.py` line 94). -/
def batchIterationReset : Except String Unit := callMatcherMethod "reset_usage"

/-- C1 (code bug): the per-batch reset operation the pipeline invokes,
`reset_usage`, does not exist on the Matcher class, so the very first
statement of every batch iteration raises `AttributeError` instead of
completing normally and resetting the per-folder cursors. -/
theorem C1_reset_usage_missing :
    "reset_usage" ∉ matcherMethods ∧
    batchIterationReset =
      .error "AttributeError: 'Matcher' object has no attribute 'reset_usage'" := by
  constructor
  · simp [matcherMethods]
  · rw [batchIterationReset, callMatcherMethod]
    rw [if_neg (by simp [matcherMethods])]
    simp

/-- The visual a chunk renders: the black `ColorClip` placeholder of
`pipeline.py` line 336 (target size, the chunk's needed duration), or real
fetched content. -/
inductive ChunkVisual where
  | placeholder : ℕ → ℕ → ℚ → ChunkVisual
  | content : List Segment → ℚ → ChunkVisual
deriving DecidableEq

/-- The per-chunk fetch of `pipeline.run` lines 267-336: random-cut mode is
chosen when `clip_min_duration > 0.1 and clip_max_duration > clip_min_duration`
(line 304) and receives a `(clip, segments)` pair whose `None` clip is
replaced by the placeholder; sequential mode calls `get_ordered_clip`, and
its bare `None` return (empty folder) fails the tuple unpacking
`video_clip, segment_meta = ...` (line 321) with a `TypeError` that the
`except` of lines 361-363 re-raises. -/
def prepareChunkVisual (width height : ℕ) (transition_type : String)
    (trans_dur : ℚ) (task : RenderTask) (st : FolderState) (draws : RandomDraws) :
    Except String ChunkVisual :=
  let needed := needed_duration transition_type trans_dur task
  let fetch := needed * task.speed
  if task.clip_min_duration > 1/10 ∧ task.clip_max_duration > task.clip_min_duration then
    match get_random_cut_clip st fetch (task.clip_min_duration * task.speed)
        (task.clip_max_duration * task.speed) draws with
    | (none, _) => .ok (.placeholder width height needed)
    | (some segs, _) => .ok (.content segs needed)
  else
    match get_ordered_clip st fetch with
    | (.bareNone, _) => .error "TypeError: cannot unpack non-iterable NoneType object"
    | (.pair none _, _) => .ok (.placeholder width height needed)
    | (.pair (some segs) _, _) => .ok (.content segs needed)

/-- C2 (code bug): over a folder with zero discoverable files, the random
path indeed returns the no-content pair and the renderer substitutes the
placeholder at target resolution and needed duration — but the sequential
path returns a bare `None` instead of a pair, so the caller's tuple
unpacking raises `TypeError` and the run fails rather than substituting the
placeholder. Evaluated at a 5 s chunk, target 1080×1920, transition "None". -/
theorem C2_empty_folder_paths :
    get_ordered_clip ⟨[], 0, 0⟩ 5 = (.bareNone, ⟨[], 0, 0⟩) ∧
    get_random_cut_clip ⟨[], 0, 0⟩ 5 2 4 ⟨fun _ => 3, fun _ => 0, fun _ => 0⟩ =
      (none, []) ∧
    prepareChunkVisual 1080 1920 "None" 0 ⟨0, 5, "f", 1, 0, 0, 5, true, true, 0, 1⟩
      ⟨[], 0, 0⟩ ⟨fun _ => 3, fun _ => 0, fun _ => 0⟩ =
      .error "TypeError: cannot unpack non-iterable NoneType object" ∧
    prepareChunkVisual 1080 1920 "None" 0 ⟨0, 5, "f", 1, 2, 4, 5, true, true, 0, 1⟩
      ⟨[], 0, 0⟩ ⟨fun _ => 3, fun _ => 0, fun _ => 0⟩ =
      .ok (.placeholder 1080 1920 5) := by
  have hord : get_ordered_clip ⟨[], 0, 0⟩ 5 = (.bareNone, ⟨[], 0, 0⟩) := by
    rw [get_ordered_clip]
    simp
  have hrand : get_random_cut_clip ⟨[], 0, 0⟩ 5 2 4
      ⟨fun _ => 3, fun _ => 0, fun _ => 0⟩ = (none, []) := by
    rw [get_random_cut_clip]
    simp
  refine ⟨hord, hrand, ?_, ?_⟩
  · rw [prepareChunkVisual]
    rw [if_neg (by norm_num)]
    have hneed : needed_duration "None" 0 ⟨0, 5, "f", 1, 0, 0, 5, true, true, 0, 1⟩ * 
        (⟨0, 5, "f", 1, 0, 0, 5, true, true, 0, 1⟩ : RenderTask).speed = 5 := by
      simp +decide [needed_duration, pad_head, pad_tail, has_trans]
    rw [hneed]
    rw [hord]
  · rw [prepareChunkVisual]
    rw [if_pos (by norm_num)]
    have hneed : needed_duration "None" 0 ⟨0, 5, "f", 1, 2, 4, 5, true, true, 0, 1⟩ = 5 := by
      simp +decide [needed_duration, pad_head, pad_tail, has_trans]
    rw [hneed]
    have h5 : (5:ℚ) * (⟨0, 5, "f", 1, 2, 4, 5, true, true, 0, 1⟩ : RenderTask).speed = 5 := by
      norm_num
    rw [h5]
    have hrand2 : get_random_cut_clip ⟨[], 0, 0⟩ 5
        ((⟨0, 5, "f", 1, 2, 4, 5, true, true, 0, 1⟩ : RenderTask).clip_min_duration *
          (⟨0, 5, "f", 1, 2, 4, 5, true, true, 0, 1⟩ : RenderTask).speed)
        ((⟨0, 5, "f", 1, 2, 4, 5, true, true, 0, 1⟩ : RenderTask).clip_max_duration *
          (⟨0, 5, "f", 1, 2, 4, 5, true, true, 0, 1⟩ : RenderTask).speed)
        ⟨fun _ => 3, fun _ => 0, fun _ => 0⟩ = (none, []) := by
      rw [get_random_cut_clip]
      simp
    rw [hrand2]

/-- The batch loop of `pipeline.run` (`pipeline.py` lines 91-711): one body
outcome per requested output (the produced file name, or the exception the
body raised); there is no per-iteration exception handler, so the first
error propagates out of `run`, only a fully clean loop returns
`generated_files`. -/
def runBatches : List (Except String String) → List String → Except String (List String)
  | [], acc => .ok acc.reverse
  | o :: rest, acc =>
      match o with
      | .ok f => runBatches rest (f :: acc)
      | .error e => .error e

/-- `pipeline.run`'s batch loop from an empty `generated_files`. -/
def runBatchLoop (outcomes : List (Except String String)) : Except String (List String) :=
  runBatches outcomes []

theorem runBatches_append_ok (pre : List String) :
    ∀ (acc : List String) (rest : List (Except String String)),
      runBatches (pre.map .ok ++ rest) acc = runBatches rest (pre.reverse ++ acc) := by
  induction pre with
  | nil => intro acc rest; simp [runBatches]
  | cons f fs ih =>
      intro acc rest
      rw [List.map_cons, List.cons_append]
      rw [show runBatches (Except.ok f :: (fs.map .ok ++ rest)) acc =
          runBatches (fs.map .ok ++ rest) (f :: acc) from rfl]
      rw [ih (f :: acc) rest]
      congr 1
      simp

/-- C3 (amended): the batch loop is fail-fast, not per-video independent: if
producing output `k` fails, `run` raises that error — the files produced for
outputs `1..k-1` are not returned and the remaining outputs are never
attempted; only a run whose every output succeeds returns the full file
list in order. (Per-task error display happens one level up, in the GUI,
once per run rather than per video.) -/
theorem C3_batch_loop_fail_fast (pre : List String) (e : String)
    (rest : List (Except String String)) :
    runBatchLoop (pre.map .ok ++ .error e :: rest) = .error e ∧
    runBatchLoop (pre.map .ok) = .ok pre := by
  constructor
  · rw [runBatchLoop, runBatches_append_ok pre [] (.error e :: rest)]
    rfl
  · rw [runBatchLoop, show pre.map (Except.ok (ε := String)) =
      pre.map .ok ++ [] from (List.append_nil _).symm,
      runBatches_append_ok pre [] []]
    simp [runBatches]

/-- Witness for C3's amended statement: one success, then a failure, then a
would-be success. -/
theorem C3_batch_loop_fail_fast_witness :
    runBatchLoop ((["batch_1.mp4"].map .ok) ++
      .error "FFmpeg encoding failed." :: [.ok "batch_3.mp4"]) =
        .error "FFmpeg encoding failed." ∧
    runBatchLoop (["batch_1.mp4"].map .ok) = .ok ["batch_1.mp4"] :=
  C3_batch_loop_fail_fast ["batch_1.mp4"] "FFmpeg encoding failed." [.ok "batch_3.mp4"]

/-- Counterexample to C3 as stated: with outputs `[ok batch_1, error, ok
batch_3]` the run returns the error — it does not return `batch_1.mp4` nor
proceed to produce `batch_3.mp4`. -/
theorem C3_counterexample_fail_retracts :
    runBatchLoop [.ok "batch_1.mp4", .error "FFmpeg encoding failed.",
      .ok "batch_3.mp4"] = .error "FFmpeg encoding failed." ∧
    runBatchLoop [.ok "batch_1.mp4", .error "FFmpeg encoding failed.",
      .ok "batch_3.mp4"] ≠ .ok ["batch_1.mp4", "batch_3.mp4"] := by
  constructor
  · rfl
  · intro h
    exact absurd h (by simp [runBatchLoop, runBatches])

end AutoClip
